import Mathlib

/-!
Verification of the force-directed web-ring layout component
(`src/app/components/WebRing.tsx`).

The component is embedded shallowly: the pure data transformations
(sorting, id assignment, ring-link construction, colour selection, the
render-sync flags) are translated directly from the source; the parts of
the d3 library the source configures (alpha decay, fixed-position
integration, zoom clamping) are modelled from the specification's
description of them.  Numbers that are floating point in the source are
modelled as rationals (`ℚ`) except where a square root is required, where
reals (`ℝ`) are used.  Randomness (`Math.random() * width`) is modelled by
oracle functions `rx ry : ℕ → ℚ` supplying the value drawn for each index.
-/

namespace WebRing

/-- `getConfig`: `forces.alphaDecay = 0.02`. -/
def alphaDecay : ℚ := 2 / 100

/-- `getConfig`: `forces.velocityDecay = 0.3`. -/
def velocityDecay : ℚ := 3 / 10

/-- `getConfig`: `zoom.minScale = 0.5` (as a real number, for the camera). -/
noncomputable def minScale : ℝ := 1 / 2

/-- `getConfig`: `zoom.maxScale = 2`. -/
noncomputable def maxScale : ℝ := 2

/-- `getConfig`: `node.fillColor` (the `visual` colour `#333333`). -/
def fillColor : String := "#333333"

/-- `getConfig`: `node.hoverColor` (the `accent` colour `#fbcb97`). -/
def hoverColor : String := "#fbcb97"

/-- The `Site` record (`interface Site extends d3.SimulationNodeDatum`):
display fields from the data file plus the kinematic fields d3 adds
(`x`, `y`, `vx`, `vy`, optional `fx`, `fy`) and the optional `id`
assigned at build time. -/
structure Site where
  website : String
  name : String
  program : String
  year : Int
  id : Option String := none
  x : ℚ := 0
  y : ℚ := 0
  vx : ℚ := 0
  vy : ℚ := 0
  fx : Option ℚ := none
  fy : Option ℚ := none
deriving Repr, DecidableEq

/-- A default record, used only as the out-of-range fallback of list
indexing (the source never indexes out of range). -/
def defaultSite : Site :=
  { website := "", name := "", program := "", year := 0 }

/-- `type SortField = 'name' | 'program' | 'year'` -/
inductive SortField where
  | name
  | program
  | year
deriving Repr, DecidableEq

/-- `type SortDirection = 'asc' | 'desc'` -/
inductive SortDirection where
  | asc
  | desc
deriving Repr, DecidableEq

/-- Modelled from the spec: `String.prototype.localeCompare` on the
already-lowercased keys, as the three-valued comparison of the string
order ("case-insensitive for string keys"). -/
def localeCompare (a b : String) : Int :=
  if a < b then -1 else if b < a then 1 else 0

/-- The comparator body of `sortedSites` (lines 128-152): switch on the
optional sort field, lowercase string keys, `localeCompare` for strings
and numeric subtraction for `year`, with the `asc` test
`sortDirection === 'asc'` selecting the argument order.  An absent field
leaves both keys as `''`, comparing equal. -/
def siteCompare (field : Option SortField) (dir : Option SortDirection)
    (a b : Site) : Int :=
  match field with
  | some .name =>
      if dir = some .asc then localeCompare a.name.toLower b.name.toLower
      else localeCompare b.name.toLower a.name.toLower
  | some .program =>
      if dir = some .asc then localeCompare a.program.toLower b.program.toLower
      else localeCompare b.program.toLower a.program.toLower
  | some .year =>
      if dir = some .asc then a.year - b.year else b.year - a.year
  | none => localeCompare "" ""

/-- The comparator as the boolean "does not come after" relation used by a
stable sort. -/
def siteLE (field : Option SortField) (dir : Option SortDirection)
    (a b : Site) : Bool :=
  siteCompare field dir a b ≤ 0

/-- `const sortedSites = [...webringData.sites].sort(comparator)` (line
128): a stable sort of a copy of the input array by the comparator. -/
def sortedSites (field : Option SortField) (dir : Option SortDirection)
    (sites : List Site) : List Site :=
  sites.mergeSort (siteLE field dir)

/-- The id written by the build loop: `` site.id = `node-${index}` ``. -/
def nodeId (i : ℕ) : String := "node-" ++ toString i

/-- The field writes of the `sortedSites.forEach` body (lines 155-157)
on one record at sorted index `k`: overwrite `id`, `x` and `y`, leaving
every other field as it was. -/
def assignRecord (s : Site) (k : ℕ) (rx ry : ℕ → ℚ) : Site :=
  { s with id := some (nodeId k), x := rx k, y := ry k }

/-- The `sortedSites.forEach` loop (lines 154-158): assign each record of
the sorted list its index-derived id and a fresh random position
(`Math.random() * width`, `Math.random() * height`, supplied here by the
oracles `rx ry`). -/
def buildNodes (sorted : List Site) (rx ry : ℕ → ℚ) : List Site :=
  sorted.mapIdx fun i s => assignRecord s i rx ry

/-- The `links` construction (lines 160-163): one link per site, from its
id to the id of the site at index `(index + 1) % length`. -/
def buildLinks (sorted : List Site) : List (String × String) :=
  sorted.mapIdx fun i s =>
    (s.id.getD "", ((sorted.getD ((i + 1) % sorted.length) defaultSite).id.getD ""))

/-- The index-level shape of the ring: edge `i` joins `i` to
`(i+1) mod n`. -/
def ringLinks (n : ℕ) : List (ℕ × ℕ) :=
  (List.range n).map fun i => (i, (i + 1) % n)

/-- Degree of node `j` in an edge list, counting every endpoint
occurrence. -/
def degreeAt (es : List (ℕ × ℕ)) (j : ℕ) : ℕ :=
  es.countP (fun e => e.1 = j) + es.countP (fun e => e.2 = j)

/-- The successor map of the ring. -/
def ringSucc (n : ℕ) (i : ℕ) : ℕ := (i + 1) % n

/-- The predecessor of node `j` on the ring of `n` nodes. -/
def prevIdx (n j : ℕ) : ℕ := if j = 0 then n - 1 else j - 1

/-! ### Force simulation engine (energy and integration)

Modelled from the spec: the engine the source configures (lines 165-188)
decays its global energy scalar multiplicatively toward its current target
by the configured decay rate each tick (step 6 of the per-tick algorithm),
and integrates free nodes by damped velocity while forcing a pinned node's
position to its fixed override with zero velocity (step 5). -/

/-- Global simulation state: current energy ("alpha") and its target
(0 normally, 0.3 while a drag is active). -/
structure SimState where
  alpha : ℚ
  alphaTarget : ℚ
deriving Repr, DecidableEq

/-- Modelled from the spec: one energy decay step,
`alpha += (alphaTarget - alpha) * alphaDecay`. -/
def alphaStep (s : SimState) : SimState :=
  { s with alpha := s.alpha + (s.alphaTarget - s.alpha) * alphaDecay }

/-- Energy after `n` ticks. -/
def alphaAfter (s : SimState) : ℕ → SimState
  | 0 => s
  | n + 1 => alphaStep (alphaAfter s n)

/-- Modelled from the spec: position/velocity integration of one node for
one tick.  The tick first accumulates force contributions into the
velocity (abstracted here as an arbitrary pair of deltas `dvx dvy`, so the
pinned-node facts hold whatever the four forces compute), then a free
coordinate damps its velocity and adds it to the position, while a pinned
coordinate is forced to its override with zero velocity. -/
def integrateNode (dvx dvy : ℚ) (s : Site) : Site :=
  let s := { s with vx := s.vx + dvx, vy := s.vy + dvy }
  let s := match s.fx with
    | some p => { s with x := p, vx := 0 }
    | none =>
        let v := s.vx * (1 - velocityDecay)
        { s with vx := v, x := s.x + v }
  match s.fy with
  | some p => { s with y := p, vy := 0 }
  | none =>
      let v := s.vy * (1 - velocityDecay)
      { s with vy := v, y := s.y + v }

/-! ### Interaction controller (drag handlers, lines 294-311) -/

/-- `dragstart`: `event.subject.fx = event.subject.x; event.subject.fy =
event.subject.y` — pin the node at its current position. -/
def dragstartNode (s : Site) : Site :=
  { s with fx := some s.x, fy := some s.y }

/-- `dragstart`'s energy action: `if (!event.active)
simulation.alphaTarget(0.3).restart()`. -/
def dragstartSim (active : Bool) (s : SimState) : SimState :=
  if !active then { s with alphaTarget := 3 / 10 } else s

/-- `dragging`: `event.subject.fx = event.x; event.subject.fy = event.y`
— move the pin to the pointer's current coordinates. -/
def draggingNode (px py : ℚ) (s : Site) : Site :=
  { s with fx := some px, fy := some py }

/-- `dragend`: `event.subject.fx = undefined; event.subject.fy =
undefined` — clear the pin. -/
def dragendNode (s : Site) : Site :=
  { s with fx := none, fy := none }

/-- `dragend`'s energy action: `if (!event.active)
simulation.alphaTarget(0)`. -/
def dragendSim (active : Bool) (s : SimState) : SimState :=
  if !active then { s with alphaTarget := 0 } else s

/-! ### Render sync loop (lines 239-292) -/

/-- The closure state of `updateDOM`: the two once-only flags declared on
lines 239-241 and, for the purpose of the statements below, a count of how
many frame-to-fit camera transitions have been started. -/
structure RenderState where
  simulationEnded : Bool
  initialZoomApplied : Bool
  zoomCount : ℕ
deriving Repr, DecidableEq

/-- The initial closure state as the source writes it (lines 239-240):
`let simulationEnded = false; let initialZoomApplied = true;`. -/
def initRenderState : RenderState :=
  { simulationEnded := false, initialZoomApplied := true, zoomCount := 0 }

/-- The initial closure state the spec describes: the frame-to-fit has not
yet been applied. -/
def specInitRenderState : RenderState :=
  { simulationEnded := false, initialZoomApplied := false, zoomCount := 0 }

/-- One `updateDOM` execution as it affects the closure flags, with
`alpha` the energy it observes: `if (!initialZoomApplied &&
simulation.alpha() < 0.5)` start the frame-to-fit transition and set the
flag; then `if (simulation.alpha() < 0.1 && !simulationEnded)` set
`simulationEnded`. -/
def updateDOMStep (st : RenderState) (alpha : ℚ) : RenderState :=
  let st :=
    if !st.initialZoomApplied ∧ alpha < 1 / 2 then
      { st with initialZoomApplied := true, zoomCount := st.zoomCount + 1 }
    else st
  if alpha < 1 / 10 ∧ !st.simulationEnded then
    { st with simulationEnded := true }
  else st

/-- Run the render sync loop over a trace of observed energies. -/
def runUpdates (st : RenderState) (alphas : List ℚ) : RenderState :=
  alphas.foldl updateDOMStep st

/-! ### Camera controller (zoom, lines 118-126 and 260-272) -/

/-- The frame-to-fit scale (line 262):
`Math.max(0.1, 1 / Math.sqrt(webringData.sites.length / 20))`. -/
noncomputable def initialScale (nodeCount : ℕ) : ℝ :=
  max (1 / 10) (1 / Real.sqrt ((nodeCount : ℝ) / 20))

/-- Modelled from the spec: the camera scale is constrained to
`[minScale, maxScale]` (the `scaleExtent` configured on line 120). -/
noncomputable def clampScale (k : ℝ) : ℝ :=
  min maxScale (max minScale k)

/-- The camera scale the frame-to-fit transition settles at. -/
noncomputable def frameToFitScale (nodeCount : ℕ) : ℝ :=
  clampScale (initialScale nodeCount)

/-! ### External highlight effect (lines 314-325) -/

/-- The fill colour the highlight effect writes to a node's circle:
`hoveredProgram === d.program || hoveredSite === d.name ? hoverColor :
fillColor` (a `null` hovered value matches no string). -/
def highlightFill (hoveredSite hoveredProgram : Option String) (d : Site) : String :=
  if hoveredProgram = some d.program ∨ hoveredSite = some d.name then hoverColor
  else fillColor

/-- The effect recolours every circle of the container at once. -/
def applyHighlight (hoveredSite hoveredProgram : Option String)
    (sites : List Site) : List String :=
  sites.map (highlightFill hoveredSite hoveredProgram)

/-! ### Setup (the main effect, lines 98-312) -/

/-- The result of a completed setup: the built nodes and links, and the
fact that the simulation was constructed and started. -/
structure BuildResult where
  nodes : List Site
  links : List (String × String)
  simulationStarted : Bool
deriving Repr, DecidableEq

/-- The main effect body: `if (!containerRef.current ||
!webringData?.sites.length) return;` (line 99) — with a container present,
an empty site list returns before anything is built; otherwise sort,
assign ids and positions, build the ring links and start the engine. -/
def setup (field : Option SortField) (dir : Option SortDirection)
    (rx ry : ℕ → ℚ) (sites : List Site) : Option BuildResult :=
  if sites.length = 0 then none
  else
    let sorted := buildNodes (sortedSites field dir sites) rx ry
    some { nodes := sorted, links := buildLinks sorted, simulationStarted := true }

/-- The node list a non-empty setup produces (sort, then assign ids and
positions). -/
def builtNodes (field : Option SortField) (dir : Option SortDirection)
    (rx ry : ℕ → ℚ) (sites : List Site) : List Site :=
  buildNodes (sortedSites field dir sites) rx ry

/-- The link list a non-empty setup produces. -/
def builtLinks (field : Option SortField) (dir : Option SortDirection)
    (rx ry : ℕ → ℚ) (sites : List Site) : List (String × String) :=
  buildLinks (builtNodes field dir rx ry sites)

/-! ### The order the spec requests, stated from the spec's words

"case-insensitive for string keys", "ascending or descending": ascending
orders by the lowercased key ascending, descending reverses that
comparison; the ordinal key (`year`) is compared numerically. -/

/-- The requested order, written from the spec's description rather than
from the comparator, to compare the code's sort against. -/
def specLE (f : SortField) (d : SortDirection) (a b : Site) : Prop :=
  match f, d with
  | .name, .asc => a.name.toLower ≤ b.name.toLower
  | .name, .desc => b.name.toLower ≤ a.name.toLower
  | .program, .asc => a.program.toLower ≤ b.program.toLower
  | .program, .desc => b.program.toLower ≤ a.program.toLower
  | .year, .asc => a.year ≤ b.year
  | .year, .desc => b.year ≤ a.year

/-! ### Heap model of the in-place mutation

The source sorts a *copy* of the input array (`[...webringData.sites]`)
but the array elements are references to the caller's record objects, and
the `forEach` body and the drag handlers assign fields through those
references.  To state this, records live in a heap (a list of records
addressed by position) and arrays are lists of pointers into the heap. -/

/-- The comparator lifted to heap pointers. -/
def ptrLE (store : List Site) (field : Option SortField)
    (dir : Option SortDirection) (p q : ℕ) : Bool :=
  siteLE field dir (store.getD p defaultSite) (store.getD q defaultSite)

/-- The `forEach` loop writing through the sorted pointer list: the
record at pointer `p`, the `k`-th of the sorted order, is overwritten in
the heap with its assigned id and fresh position. -/
def writeBack (rx ry : ℕ → ℚ) : List Site → List ℕ → ℕ → List Site
  | store, [], _ => store
  | store, p :: ps, k =>
      writeBack rx ry (store.set p (assignRecord (store.getD p defaultSite) k rx ry)) ps (k + 1)

/-- Lines 128-158 against the heap: copy the pointer array, sort the
copy, then write ids and fresh positions through the sorted pointers.
Returns the updated heap and the sorted pointer array. -/
def buildInPlace (store : List Site) (arr : List ℕ)
    (field : Option SortField) (dir : Option SortDirection)
    (rx ry : ℕ → ℚ) : List Site × List ℕ :=
  let sortedPtrs := arr.mergeSort (ptrLE store field dir)
  (writeBack rx ry store sortedPtrs 0, sortedPtrs)

/-- `dragstart` against the heap: the handler writes `fx`/`fy` onto the
record stored at the dragged pointer — the same record the build wrote. -/
def dragstartHeap (store : List Site) (p : ℕ) : List Site :=
  store.set p (dragstartNode (store.getD p defaultSite))

/-! ### Concrete sample data -/

/-- A concrete site record. -/
def siteA : Site := { website := "https://a.example", name := "Alice", program := "CS", year := 2024 }

/-- A concrete site record. -/
def siteB : Site := { website := "https://b.example", name := "bob", program := "SE", year := 2023 }

/-- A concrete site record. -/
def siteC : Site := { website := "https://c.example", name := "Carol", program := "CS", year := 2025 }

/-- A concrete three-site input. -/
def demoSites : List Site := [siteB, siteA, siteC]

/-- A degenerate randomness oracle. -/
def zeroRand : ℕ → ℚ := fun _ => 0

/-! ## Theorems -/

/-- C9: for an empty input list the setup returns immediately: no nodes
or edges are built, the simulation is not started, and no error is raised
(the function totally returns `none`). -/
theorem c9_empty_input_no_engine (field : Option SortField)
    (dir : Option SortDirection) (rx ry : ℕ → ℚ) :
    setup field dir rx ry [] = none := rfl

/-- C3 counterexample: for a single-site input the build does *not*
produce zero edges — the link list has length 1 (a self-loop), so the
claim "N = 1 yields zero edges" is false on the code. -/
theorem c3_single_site_not_zero_edges :
    ¬ (builtLinks (some .name) (some .asc) zeroRand zeroRand [siteA]).length = 0 := by
  simp [builtLinks, builtNodes, buildNodes, buildLinks, sortedSites]

/-- C3 amended: for any single-site input the build produces exactly one
node and exactly one edge, a self-loop joining the node's id `node-0` to
itself. -/
theorem c3_single_site_self_loop (s : Site) (field : Option SortField)
    (dir : Option SortDirection) (rx ry : ℕ → ℚ) :
    (builtNodes field dir rx ry [s]).length = 1 ∧
    builtLinks field dir rx ry [s] = [(nodeId 0, nodeId 0)] := by
  constructor
  · simp [builtNodes, buildNodes, sortedSites]
  · simp [builtLinks, builtNodes, buildNodes, buildLinks, sortedSites,
      List.mapIdx_cons, assignRecord]

/-- C5: during a drag the node's effective position each tick equals its
pointer-driven fixed override, whatever velocity deltas the forces
accumulate: drag start pins the node at its current position (and the
next tick leaves it exactly there), each drag move re-pins it at the
pointer coordinates (and the next tick places it exactly there with
zero velocity), and drag end clears the override in place, after which
the next tick integrates the position freely from the last position. -/
theorem c5_drag_override (s : Site) (dvx dvy px py : ℚ) :
    (dragstartNode s).fx = some s.x ∧ (dragstartNode s).fy = some s.y ∧
    (integrateNode dvx dvy (dragstartNode s)).x = s.x ∧
    (integrateNode dvx dvy (dragstartNode s)).y = s.y ∧
    (draggingNode px py s).fx = some px ∧ (draggingNode px py s).fy = some py ∧
    (integrateNode dvx dvy (draggingNode px py s)).x = px ∧
    (integrateNode dvx dvy (draggingNode px py s)).y = py ∧
    (integrateNode dvx dvy (draggingNode px py s)).vx = 0 ∧
    (integrateNode dvx dvy (draggingNode px py s)).vy = 0 ∧
    (dragendNode s).fx = none ∧ (dragendNode s).fy = none ∧
    (dragendNode s).x = s.x ∧ (dragendNode s).y = s.y ∧
    (integrateNode dvx dvy (dragendNode s)).x
      = s.x + (s.vx + dvx) * (1 - velocityDecay) ∧
    (integrateNode dvx dvy (dragendNode s)).y
      = s.y + (s.vy + dvy) * (1 - velocityDecay) := by
  refine ⟨rfl, rfl, ?_, ?_, rfl, rfl, ?_, ?_, ?_, ?_, rfl, rfl, rfl, rfl, ?_, ?_⟩ <;>
    simp [integrateNode, dragstartNode, draggingNode, dragendNode]

/-- C8: the externally driven highlight recolours every circle at once
from the two supplied hovered values alone: every node whose program
matches the hovered group, and every node whose name matches the hovered
site, is given the highlight colour, and every node matching neither is
given the base fill colour. -/
theorem c8_external_highlight (hoveredSite hoveredProgram : Option String)
    (sites : List Site) :
    applyHighlight hoveredSite hoveredProgram sites
      = sites.map (highlightFill hoveredSite hoveredProgram) ∧
    ∀ d ∈ sites,
      ((hoveredProgram = some d.program ∨ hoveredSite = some d.name) →
        highlightFill hoveredSite hoveredProgram d = hoverColor) ∧
      (hoveredProgram ≠ some d.program → hoveredSite ≠ some d.name →
        highlightFill hoveredSite hoveredProgram d = fillColor) := by
  refine ⟨rfl, fun d _ => ⟨fun h => ?_, fun h1 h2 => ?_⟩⟩
  · simp [highlightFill, h]
  · simp [highlightFill, h1, h2]

/-- C8 witness: with the hovered group externally set to `"CS"`, the two
sample nodes sharing program `"CS"` both render in the highlight colour
simultaneously, and the node in another program keeps the base fill. -/
theorem c8_external_highlight_witness :
    highlightFill none (some "CS") siteA = hoverColor ∧
    highlightFill none (some "CS") siteC = hoverColor ∧
    highlightFill none (some "CS") siteB = fillColor :=
  ⟨((c8_external_highlight none (some "CS") demoSites).2 siteA (by decide)).1
      (Or.inl rfl),
   ((c8_external_highlight none (some "CS") demoSites).2 siteC (by decide)).1
      (Or.inl rfl),
   ((c8_external_highlight none (some "CS") demoSites).2 siteB (by decide)).2
      (by decide) (by decide)⟩

/-- Once `initialZoomApplied` is `true`, one `updateDOM` run keeps it
`true` and never starts a frame-to-fit transition. -/
theorem updateDOMStep_applied (st : RenderState) (a : ℚ)
    (h : st.initialZoomApplied = true) :
    (updateDOMStep st a).initialZoomApplied = true ∧
    (updateDOMStep st a).zoomCount = st.zoomCount := by
  simp only [updateDOMStep, h]
  split <;> split <;> simp_all

/-- Once `initialZoomApplied` is `true`, no run of the render sync loop
ever starts a frame-to-fit transition. -/
theorem runUpdates_applied (alphas : List ℚ) :
    ∀ st : RenderState, st.initialZoomApplied = true →
      (runUpdates st alphas).zoomCount = st.zoomCount := by
  induction alphas with
  | nil => intro st _; rfl
  | cons a as ih =>
      intro st h
      have h2 := updateDOMStep_applied st a h
      simpa [runUpdates, List.foldl_cons] using (ih _ h2.1).trans h2.2

/-- C1: the frame-to-fit transition never fires.  The source initialises
`initialZoomApplied` to `true` (line 240), so the guard on line 260 is
never taken: over every possible trace of observed energies the render
sync loop starts zero camera transitions — in particular on a trace whose
energy falls below 0.5 after running.  Had the flag started `false` as
the specification describes, the same trace would fire it exactly once. -/
theorem c1_frame_to_fit_never_fires :
    (∀ alphas : List ℚ, (runUpdates initRenderState alphas).zoomCount = 0) ∧
    (runUpdates initRenderState [3/5, 2/5, 1/20]).zoomCount = 0 ∧
    (runUpdates specInitRenderState [3/5, 2/5, 1/20]).zoomCount = 1 := by
  refine ⟨fun alphas => runUpdates_applied alphas initRenderState rfl, ?_, ?_⟩ <;>
    norm_num [runUpdates, List.foldl, updateDOMStep, initRenderState, specInitRenderState]

/-- The energy target is preserved by every decay step. -/
theorem alphaAfter_target (s : SimState) (n : ℕ) :
    (alphaAfter s n).alphaTarget = s.alphaTarget := by
  induction n with
  | zero => rfl
  | succ n ih => simpa [alphaAfter, alphaStep] using ih

/-- With target 0 each tick multiplies the energy by `49/50`. -/
theorem alphaAfter_zero_target_alpha (a0 : ℚ) (n : ℕ) :
    (alphaAfter ⟨a0, 0⟩ (n + 1)).alpha = (alphaAfter ⟨a0, 0⟩ n).alpha * (49 / 50) := by
  have ht : (alphaAfter ⟨a0, 0⟩ n).alphaTarget = 0 := alphaAfter_target _ n
  show (alphaStep (alphaAfter ⟨a0, 0⟩ n)).alpha = _
  simp [alphaStep, alphaDecay, ht]
  ring

/-- With target 0 the energy stays strictly positive and bounded by its
initial value. -/
theorem alphaAfter_pos_le (a0 : ℚ) (h0 : 0 < a0) (n : ℕ) :
    0 < (alphaAfter ⟨a0, 0⟩ n).alpha ∧ (alphaAfter ⟨a0, 0⟩ n).alpha ≤ a0 := by
  induction n with
  | zero => exact ⟨h0, le_rfl⟩
  | succ n ih =>
      rw [alphaAfter_zero_target_alpha]
      constructor
      · nlinarith [ih.1]
      · nlinarith [ih.1, ih.2]

/-- C4: absent an active drag the energy target is 0 (`dragend` resets
it), and with target 0 the energy is strictly positive at every tick, at
most its initial value, and non-increasing from each tick to the next. -/
theorem c4_energy_monotone_bounded (a0 : ℚ) (h0 : 0 < a0) (n : ℕ) :
    0 < (alphaAfter ⟨a0, 0⟩ n).alpha ∧
    (alphaAfter ⟨a0, 0⟩ n).alpha ≤ a0 ∧
    (alphaAfter ⟨a0, 0⟩ (n + 1)).alpha ≤ (alphaAfter ⟨a0, 0⟩ n).alpha ∧
    (dragendSim false ⟨a0, 3 / 10⟩).alphaTarget = 0 := by
  obtain ⟨hpos, hle⟩ := alphaAfter_pos_le a0 h0 n
  refine ⟨hpos, hle, ?_, rfl⟩
  rw [alphaAfter_zero_target_alpha]
  nlinarith [hpos]

/-- C4 witness: the energy bounds at initial energy 1 after three ticks. -/
theorem c4_energy_monotone_bounded_witness :
    0 < (1 : ℚ) ∧
    (0 < (alphaAfter ⟨1, 0⟩ 3).alpha ∧
      (alphaAfter ⟨1, 0⟩ 3).alpha ≤ 1 ∧
      (alphaAfter ⟨1, 0⟩ (3 + 1)).alpha ≤ (alphaAfter ⟨1, 0⟩ 3).alpha ∧
      (dragendSim false ⟨1, 3 / 10⟩).alphaTarget = 0) :=
  ⟨by norm_num, c4_energy_monotone_bounded 1 (by norm_num) 3⟩

/-- For node counts from 1 up the raw frame-to-fit scale does not
increase with the node count. -/
theorem initialScale_antitone (m n : ℕ) (h1 : 1 ≤ m) (hmn : m ≤ n) :
    initialScale n ≤ initialScale m := by
  unfold initialScale
  have hm : (0 : ℝ) < (m : ℝ) / 20 := by
    have : (0 : ℝ) < (m : ℝ) := by exact_mod_cast Nat.lt_of_lt_of_le Nat.zero_lt_one h1
    linarith
  have hs : Real.sqrt ((m : ℝ) / 20) ≤ Real.sqrt ((n : ℝ) / 20) := by
    apply Real.sqrt_le_sqrt
    have : (m : ℝ) ≤ (n : ℝ) := by exact_mod_cast hmn
    linarith
  exact max_le_max le_rfl
    (one_div_le_one_div_of_le (Real.sqrt_pos.mpr hm) hs)

/-- C6: the frame-to-fit scale `max(0.1, 1/sqrt(nodeCount/20))`, clamped
to `[minScale, maxScale]`, never increases as the node count grows, always
lies within `[minScale, maxScale]`, and at node count 3 the raw formula is
`max(0.1, 1/sqrt(3/20))`, which clamps to `maxScale = 2`. -/
theorem c6_frame_scale_clamped (m n : ℕ) (h1 : 1 ≤ m) (hmn : m ≤ n) :
    frameToFitScale n ≤ frameToFitScale m ∧
    (∀ k : ℕ, minScale ≤ frameToFitScale k ∧ frameToFitScale k ≤ maxScale) ∧
    initialScale 3 = max (1 / 10) (1 / Real.sqrt (3 / 20)) ∧
    frameToFitScale 3 = maxScale := by
  refine ⟨?_, fun k => ⟨?_, ?_⟩, ?_, ?_⟩
  · exact min_le_min le_rfl
      (max_le_max le_rfl (initialScale_antitone m n h1 hmn))
  · exact le_min (by unfold minScale maxScale; norm_num) (le_max_left _ _)
  · exact min_le_left _ _
  · unfold initialScale
    norm_num
  · have hpos : 0 < Real.sqrt ((3 : ℝ) / 20) := Real.sqrt_pos.mpr (by norm_num)
    have hs : Real.sqrt ((3 : ℝ) / 20) ≤ 1 / 2 := by
      calc Real.sqrt ((3 : ℝ) / 20) ≤ Real.sqrt ((1 / 2 : ℝ) ^ 2) :=
            Real.sqrt_le_sqrt (by norm_num)
        _ = 1 / 2 := Real.sqrt_sq (by norm_num)
    have h2 : (2 : ℝ) ≤ 1 / Real.sqrt ((3 : ℝ) / 20) := by
      calc (2 : ℝ) = 1 / (1 / 2) := by norm_num
        _ ≤ 1 / Real.sqrt ((3 : ℝ) / 20) := one_div_le_one_div_of_le hpos hs
    have hinit : (2 : ℝ) ≤ initialScale 3 := by
      unfold initialScale
      have h3 : ((3 : ℕ) : ℝ) / 20 = (3 : ℝ) / 20 := by norm_num
      rw [h3]
      exact le_trans h2 (le_max_right _ _)
    unfold frameToFitScale clampScale maxScale minScale
    exact min_eq_left (le_trans hinit (le_max_right _ _))

/-- C6 witness: the scale bounds and monotone comparison at node counts
2 and 5. -/
theorem c6_frame_scale_clamped_witness :
    1 ≤ 2 ∧ 2 ≤ 5 ∧
    (frameToFitScale 5 ≤ frameToFitScale 2 ∧
      (∀ k : ℕ, minScale ≤ frameToFitScale k ∧ frameToFitScale k ≤ maxScale) ∧
      initialScale 3 = max (1 / 10) (1 / Real.sqrt (3 / 20)) ∧
      frameToFitScale 3 = maxScale) :=
  ⟨by norm_num, by norm_num, c6_frame_scale_clamped 2 5 (by norm_num) (by norm_num)⟩

/-- The three-valued `localeCompare` model reports "not after" exactly
for the string order. -/
theorem localeCompare_le_iff (a b : String) : localeCompare a b ≤ 0 ↔ a ≤ b := by
  unfold localeCompare
  split_ifs with h1 h2
  · simpa using h1.le
  · exact iff_of_false (by omega) (not_le.mpr h2)
  · exact iff_of_true le_rfl (not_lt.mp h2)

/-- The code's comparator accepts a pair exactly when the spec's
requested order does. -/
theorem siteLE_iff (f : SortField) (d : SortDirection) (a b : Site) :
    siteLE (some f) (some d) a b = true ↔ specLE f d a b := by
  cases f <;> cases d <;>
    simp [siteLE, siteCompare, specLE, localeCompare_le_iff]

/-- The comparator relation is transitive. -/
theorem siteLE_trans (f : SortField) (d : SortDirection) (a b c : Site)
    (hab : siteLE (some f) (some d) a b = true)
    (hbc : siteLE (some f) (some d) b c = true) :
    siteLE (some f) (some d) a c = true := by
  rw [siteLE_iff] at hab hbc ⊢
  cases f <;> cases d <;> simp only [specLE] at hab hbc ⊢ <;>
    first
      | exact le_trans hab hbc
      | exact le_trans hbc hab

/-- The comparator relation is total. -/
theorem siteLE_total (f : SortField) (d : SortDirection) (a b : Site) :
    (siteLE (some f) (some d) a b || siteLE (some f) (some d) b a) = true := by
  rw [Bool.or_eq_true, siteLE_iff, siteLE_iff]
  cases f <;> cases d <;> exact le_total _ _

/-- C7: for every requested sort field and direction the list the ring is
built from is ordered as the spec requests — case-insensitively for the
string keys (`name`, `program`), lowercased ascending for `asc` and the
reverse for `desc`, and numerically for `year` — and it is a permutation
of the input. -/
theorem c7_sort_order (f : SortField) (d : SortDirection) (sites : List Site) :
    (sortedSites (some f) (some d) sites).Pairwise (specLE f d) ∧
    (sortedSites (some f) (some d) sites).Perm sites := by
  constructor
  · have h := List.sorted_mergeSort (siteLE_trans f d) (siteLE_total f d) sites
    exact h.imp fun hab => (siteLE_iff f d _ _).mp hab
  · exact List.mergeSort_perm sites _

/-- The index-level ring has one edge per node. -/
theorem ringLinks_length (n : ℕ) : (ringLinks n).length = n := by
  simp [ringLinks]

/-- Building nodes preserves the list length. -/
theorem buildNodes_length (sorted : List Site) (rx ry : ℕ → ℚ) :
    (buildNodes sorted rx ry).length = sorted.length := by
  simp [buildNodes]

/-- The links built over assigned nodes are exactly the index-level ring
relabelled with the assigned ids. -/
theorem buildLinks_buildNodes (sorted : List Site) (rx ry : ℕ → ℚ) :
    buildLinks (buildNodes sorted rx ry)
      = (ringLinks sorted.length).map (fun e => (nodeId e.1, nodeId e.2)) := by
  apply List.ext_getElem
  · simp [buildLinks, ringLinks, buildNodes]
  · intro i h1 h2
    have hi : i < sorted.length := by
      simpa [buildLinks, buildNodes] using h1
    have hn : 0 < sorted.length := Nat.lt_of_le_of_lt (Nat.zero_le i) hi
    have hj : (i + 1) % sorted.length < sorted.length := Nat.mod_lt _ hn
    have hlen : (buildNodes sorted rx ry).length = sorted.length :=
      buildNodes_length sorted rx ry
    simp only [buildLinks, List.getElem_mapIdx, List.getElem_map, ringLinks,
      List.getElem_range, buildNodes, List.getD_eq_getElem?_getD,
      List.getElem?_mapIdx, List.length_mapIdx]
    rw [List.getElem?_eq_getElem hj]
    simp [assignRecord]

/-- Every source endpoint value `j < n` occurs exactly once in the ring's
edge list. -/
theorem countP_fst_ringLinks (n j : ℕ) (hj : j < n) :
    (ringLinks n).countP (fun e => e.1 = j) = 1 := by
  unfold ringLinks
  rw [List.countP_map]
  have h1 : ((List.range n).countP fun i => decide (i = j))
      = (List.range n).count j := by
    rw [List.count]
    exact List.countP_congr fun x _ => by simp
  calc ((List.range n).countP ((fun e : ℕ × ℕ => decide (e.1 = j)) ∘
          fun i => (i, (i + 1) % n)))
      = ((List.range n).countP fun i => decide (i = j)) := by
        exact List.countP_congr fun x _ => by simp
    _ = (List.range n).count j := h1
    _ = 1 := List.count_eq_one_of_mem (List.nodup_range n) (List.mem_range.mpr hj)

/-- `(i+1) % n` hits `j` exactly at the ring predecessor of `j`. -/
theorem succ_mod_eq_iff (n i j : ℕ) (hi : i < n) (hj : j < n) :
    ((i + 1) % n = j) ↔ i = prevIdx n j := by
  rcases Nat.lt_or_ge (i + 1) n with h | h
  · rw [Nat.mod_eq_of_lt h]
    unfold prevIdx
    split_ifs <;> omega
  · have he : i + 1 = n := by omega
    rw [he, Nat.mod_self]
    unfold prevIdx
    split_ifs <;> omega

/-- Every target endpoint value `j < n` occurs exactly once in the ring's
edge list. -/
theorem countP_snd_ringLinks (n j : ℕ) (hj : j < n) :
    (ringLinks n).countP (fun e => e.2 = j) = 1 := by
  have hp : prevIdx n j < n := by
    unfold prevIdx
    split_ifs <;> omega
  unfold ringLinks
  rw [List.countP_map]
  calc ((List.range n).countP ((fun e : ℕ × ℕ => decide (e.2 = j)) ∘
          fun i => (i, (i + 1) % n)))
      = ((List.range n).countP fun i => decide (i = prevIdx n j)) := by
        refine List.countP_congr fun x hx => by
          simp only [Function.comp_apply, decide_eq_true_eq]
          exact succ_mod_eq_iff n x j (List.mem_range.mp hx) hj
    _ = (List.range n).count (prevIdx n j) := by
        rw [List.count]
        exact List.countP_congr fun x _ => by simp
    _ = 1 := List.count_eq_one_of_mem (List.nodup_range n) (List.mem_range.mpr hp)

/-- Every node of the ring has degree exactly 2. -/
theorem degreeAt_ringLinks (n j : ℕ) (hj : j < n) :
    degreeAt (ringLinks n) j = 2 := by
  unfold degreeAt
  rw [countP_fst_ringLinks n j hj, countP_snd_ringLinks n j hj]

/-- Iterating the ring successor from node 0 walks `j` steps to `j % n`. -/
theorem ringSucc_iterate (n : ℕ) (j : ℕ) :
    (ringSucc n)^[j] 0 = j % n := by
  induction j with
  | zero => simp
  | succ j ih =>
      rw [Function.iterate_succ_apply', ih]
      unfold ringSucc
      exact Nat.ModEq.add_right 1 (Nat.mod_modEq j n)

/-- C2: for every input of `N ≥ 2` records the build produces exactly
`N` edges; edge `i` joins node `i` to node `(i+1) mod N` of the sorted
order (relabelled with the assigned ids); every node has degree exactly
2; and the successor walk from node 0 reaches every node, so the edges
form one single cycle over all nodes with no sub-cycles. -/
theorem c2_ring_cycle (field : Option SortField) (dir : Option SortDirection)
    (rx ry : ℕ → ℚ) (sites : List Site) (_h2 : 2 ≤ sites.length) :
    (builtLinks field dir rx ry sites).length = sites.length ∧
    builtLinks field dir rx ry sites
      = (ringLinks sites.length).map (fun e => (nodeId e.1, nodeId e.2)) ∧
    (∀ i, i < sites.length →
      (ringLinks sites.length).getD i (0, 0) = (i, (i + 1) % sites.length)) ∧
    (∀ j, j < sites.length → degreeAt (ringLinks sites.length) j = 2) ∧
    (∀ j, j < sites.length → (ringSucc sites.length)^[j] 0 = j) := by
  have hsl : (sortedSites field dir sites).length = sites.length :=
    (List.mergeSort_perm sites (siteLE field dir)).length_eq
  have hbridge : builtLinks field dir rx ry sites
      = (ringLinks sites.length).map (fun e => (nodeId e.1, nodeId e.2)) := by
    unfold builtLinks builtNodes
    rw [buildLinks_buildNodes, hsl]
  refine ⟨?_, hbridge, ?_, ?_, ?_⟩
  · rw [hbridge]
    simp [ringLinks]
  · intro i hi
    rw [List.getD_eq_getElem?_getD,
      List.getElem?_eq_getElem (by simpa [ringLinks_length] using hi)]
    simp [ringLinks]
  · intro j hj
    exact degreeAt_ringLinks sites.length j hj
  · intro j hj
    rw [ringSucc_iterate, Nat.mod_eq_of_lt hj]

/-- C2 witness: the ring over the three sample sites sorted by name
ascending. -/
theorem c2_ring_cycle_witness :
    2 ≤ demoSites.length ∧
    ((builtLinks (some .name) (some .asc) zeroRand zeroRand demoSites).length
        = demoSites.length ∧
      builtLinks (some .name) (some .asc) zeroRand zeroRand demoSites
        = (ringLinks demoSites.length).map (fun e => (nodeId e.1, nodeId e.2)) ∧
      (∀ i, i < demoSites.length →
        (ringLinks demoSites.length).getD i (0, 0)
          = (i, (i + 1) % demoSites.length)) ∧
      (∀ j, j < demoSites.length → degreeAt (ringLinks demoSites.length) j = 2) ∧
      (∀ j, j < demoSites.length → (ringSucc demoSites.length)^[j] 0 = j)) :=
  ⟨by decide,
   c2_ring_cycle (some .name) (some .asc) zeroRand zeroRand demoSites (by decide)⟩

/-- Setting one heap cell leaves every other cell's contents unchanged. -/
theorem getD_set_ne (store : List Site) (p q : ℕ) (a : Site) (h : p ≠ q) :
    (store.set p a).getD q defaultSite = store.getD q defaultSite := by
  simp [List.getD_eq_getElem?_getD, List.getElem?_set_ne h]

/-- Writing the sorted records back leaves the heap's size unchanged. -/
theorem writeBack_length (rx ry : ℕ → ℚ) :
    ∀ (ps : List ℕ) (store : List Site) (k : ℕ),
      (writeBack rx ry store ps k).length = store.length := by
  intro ps
  induction ps with
  | nil => intro store k; rfl
  | cons p ps ih =>
      intro store k
      rw [writeBack, ih]
      simp

/-- A heap cell no pointer of the list names is untouched by the
write-back. -/
theorem writeBack_getD_not_mem (rx ry : ℕ → ℚ) :
    ∀ (ps : List ℕ) (store : List Site) (k q : ℕ), q ∉ ps →
      (writeBack rx ry store ps k).getD q defaultSite
        = store.getD q defaultSite := by
  intro ps
  induction ps with
  | nil => intro store k q _; rfl
  | cons p ps ih =>
      intro store k q hq
      have hqp : p ≠ q := fun h => hq (by simp [h])
      have hqs : q ∉ ps := fun h => hq (by simp [h])
      rw [writeBack, ih _ _ _ hqs]
      simp [List.getD_eq_getElem?_getD, List.getElem?_set_ne hqp]

/-- The heap cell named by the `j`-th pointer of a duplicate-free list
holds, after the write-back starting at index `k`, its old record with
`id`, `x`, `y` overwritten for sorted position `k + j`. -/
theorem writeBack_getD_mem (rx ry : ℕ → ℚ) :
    ∀ (ps : List ℕ) (store : List Site) (k j : ℕ), ps.Nodup →
      j < ps.length → ps.getD j 0 < store.length →
      (writeBack rx ry store ps k).getD (ps.getD j 0) defaultSite
        = assignRecord (store.getD (ps.getD j 0) defaultSite) (k + j) rx ry := by
  intro ps
  induction ps with
  | nil => intro store k j _ hj _; simp at hj
  | cons p ps ih =>
      intro store k j hnd hj hlt
      obtain ⟨hpnotin, hnd'⟩ := List.nodup_cons.mp hnd
      rcases j with _ | j
      · simp only [List.getD_cons_zero] at hlt ⊢
        rw [writeBack, writeBack_getD_not_mem rx ry ps _ _ p hpnotin]
        simp [List.getD_eq_getElem?_getD, List.getElem?_set_self hlt]
      · simp only [List.getD_cons_succ] at hlt ⊢
        have hjlen : j < ps.length := by simpa using hj
        have hmem : ps.getD j 0 ∈ ps := by
          rw [List.getD_eq_getElem?_getD, List.getElem?_eq_getElem hjlen]
          exact List.getElem_mem hjlen
        have hqp : p ≠ ps.getD j 0 := fun h => hpnotin (h ▸ hmem)
        rw [writeBack, ih _ (k + 1) j hnd' hjlen (by simpa using hlt)]
        rw [getD_set_ne _ _ _ _ hqp]
        have harith : k + 1 + j = k + (j + 1) := by omega
        rw [harith]

/-- C10: the build mutates the caller's records in place.  Only the
pointer array is copied and sorted — it remains a permutation of the
caller's array, naming the same heap cells — and then the record behind
the `j`-th sorted pointer is overwritten in the heap with id
`node-<j>` and the fresh coordinates drawn for position `j`, all other
fields and all unlisted cells untouched; the drawn coordinates land in
`[0, width) × [0, height)` whenever the randomness oracles do; and the
drag handler later writes its `fx`/`fy` pin onto the very record stored
in the heap cell it names. -/
theorem c10_in_place_mutation (store : List Site) (arr : List ℕ)
    (field : Option SortField) (dir : Option SortDirection) (rx ry : ℕ → ℚ)
    (hnd : arr.Nodup) (hlt : ∀ p ∈ arr, p < store.length) :
    ((buildInPlace store arr field dir rx ry).2).Perm arr ∧
    (∀ j, j < (buildInPlace store arr field dir rx ry).2.length →
      (buildInPlace store arr field dir rx ry).1.getD
          ((buildInPlace store arr field dir rx ry).2.getD j 0) defaultSite
        = assignRecord
            (store.getD ((buildInPlace store arr field dir rx ry).2.getD j 0)
              defaultSite) j rx ry) ∧
    (∀ q, q ∉ arr →
      (buildInPlace store arr field dir rx ry).1.getD q defaultSite
        = store.getD q defaultSite) ∧
    (∀ w h : ℚ, (∀ k, 0 ≤ rx k ∧ rx k < w) → (∀ k, 0 ≤ ry k ∧ ry k < h) →
      ∀ j, j < (buildInPlace store arr field dir rx ry).2.length →
        let r := (buildInPlace store arr field dir rx ry).1.getD
          ((buildInPlace store arr field dir rx ry).2.getD j 0) defaultSite
        0 ≤ r.x ∧ r.x < w ∧ 0 ≤ r.y ∧ r.y < h) ∧
    (∀ p, p < (buildInPlace store arr field dir rx ry).1.length →
      (dragstartHeap (buildInPlace store arr field dir rx ry).1 p).getD p defaultSite
        = dragstartNode
            ((buildInPlace store arr field dir rx ry).1.getD p defaultSite)) := by
  have hperm : (arr.mergeSort (ptrLE store field dir)).Perm arr :=
    List.mergeSort_perm arr _
  have hnd' : (arr.mergeSort (ptrLE store field dir)).Nodup :=
    hperm.symm.nodup hnd
  have hmem_aux : ∀ j, j < (arr.mergeSort (ptrLE store field dir)).length →
      (arr.mergeSort (ptrLE store field dir)).getD j 0 < store.length := by
    intro j hj
    apply hlt
    apply hperm.mem_iff.mp
    rw [List.getD_eq_getElem?_getD, List.getElem?_eq_getElem hj]
    exact List.getElem_mem hj
  have hcell : ∀ j, j < (arr.mergeSort (ptrLE store field dir)).length →
      (buildInPlace store arr field dir rx ry).1.getD
          ((arr.mergeSort (ptrLE store field dir)).getD j 0) defaultSite
        = assignRecord
            (store.getD ((arr.mergeSort (ptrLE store field dir)).getD j 0)
              defaultSite) j rx ry := by
    intro j hj
    have := writeBack_getD_mem rx ry (arr.mergeSort (ptrLE store field dir))
      store 0 j hnd' hj (hmem_aux j hj)
    simpa using this
  refine ⟨hperm, hcell, ?_, ?_, ?_⟩
  · intro q hq
    exact writeBack_getD_not_mem rx ry _ store 0 q
      (fun h => hq (hperm.mem_iff.mp h))
  · intro w h hw hh j hj
    intro r
    have hx := hcell j hj
    show 0 ≤ r.x ∧ r.x < w ∧ 0 ≤ r.y ∧ r.y < h
    have : r = assignRecord
        (store.getD ((arr.mergeSort (ptrLE store field dir)).getD j 0)
          defaultSite) j rx ry := hx
    rw [this]
    exact ⟨(hw j).1, (hw j).2, (hh j).1, (hh j).2⟩
  · intro p hp
    simp only [dragstartHeap, List.getD_eq_getElem?_getD,
      List.getElem?_set_self hp, Option.getD_some]

/-- C10 witness: three records in the heap, the caller's array `[0,1,2]`,
sorted by name ascending. -/
theorem c10_in_place_mutation_witness :
    ([0, 1, 2] : List ℕ).Nodup ∧ (∀ p ∈ ([0, 1, 2] : List ℕ), p < demoSites.length) ∧
    (((buildInPlace demoSites [0, 1, 2] (some .name) (some .asc) zeroRand zeroRand).2).Perm
        [0, 1, 2] ∧
      (∀ j, j < (buildInPlace demoSites [0, 1, 2] (some .name) (some .asc) zeroRand zeroRand).2.length →
        (buildInPlace demoSites [0, 1, 2] (some .name) (some .asc) zeroRand zeroRand).1.getD
            ((buildInPlace demoSites [0, 1, 2] (some .name) (some .asc) zeroRand zeroRand).2.getD j 0)
            defaultSite
          = assignRecord
              (demoSites.getD
                ((buildInPlace demoSites [0, 1, 2] (some .name) (some .asc) zeroRand zeroRand).2.getD j 0)
                defaultSite) j zeroRand zeroRand) ∧
      (∀ q, q ∉ ([0, 1, 2] : List ℕ) →
        (buildInPlace demoSites [0, 1, 2] (some .name) (some .asc) zeroRand zeroRand).1.getD q
            defaultSite
          = demoSites.getD q defaultSite) ∧
      (∀ w h : ℚ, (∀ k, 0 ≤ zeroRand k ∧ zeroRand k < w) →
        (∀ k, 0 ≤ zeroRand k ∧ zeroRand k < h) →
        ∀ j, j < (buildInPlace demoSites [0, 1, 2] (some .name) (some .asc) zeroRand zeroRand).2.length →
          let r := (buildInPlace demoSites [0, 1, 2] (some .name) (some .asc) zeroRand zeroRand).1.getD
            ((buildInPlace demoSites [0, 1, 2] (some .name) (some .asc) zeroRand zeroRand).2.getD j 0)
            defaultSite
          0 ≤ r.x ∧ r.x < w ∧ 0 ≤ r.y ∧ r.y < h) ∧
      (∀ p, p < (buildInPlace demoSites [0, 1, 2] (some .name) (some .asc) zeroRand zeroRand).1.length →
        (dragstartHeap
            (buildInPlace demoSites [0, 1, 2] (some .name) (some .asc) zeroRand zeroRand).1 p).getD p
            defaultSite
          = dragstartNode
              ((buildInPlace demoSites [0, 1, 2] (some .name) (some .asc) zeroRand zeroRand).1.getD p
                defaultSite))) :=
  ⟨by decide, by decide,
   c10_in_place_mutation demoSites [0, 1, 2] (some .name) (some .asc)
     zeroRand zeroRand (by decide) (by decide)⟩

end WebRing
